import Mathlib

/-!
Verification of the page-selection and reassembly engine of the mergePDF
application. The definitions below are shallow embeddings of the functions
of the main page component: the merge-mode queue ingestion (`addFiles`),
the merge loop (`mergePDFs`), and the trim-mode state operations
(`toggleDeletePage`, `rotatePage`) together with the partition and
artifact-emission logic of `processTrim`.

Modelling conventions:
* a queued merge file is represented by its probed page count
  (`Option Nat`: `none` when `getPageCount` returned `null`);
* an offered file is a pair `(isPdf, probedPageCount)` where `isPdf`
  records whether its type or name passed the PDF filter;
* the JavaScript `Set<number>` of deleted pages is a `Finset Nat`;
* the JavaScript `Map<number, number>` of rotations is an association
  list `List (Nat × Nat)` with `Map.get`/`Map.set`/`Map.delete` embedded
  as `mapGet`/`mapSet`/`mapDelete`;
* an output artifact is a pair of its download filename and its ordered
  list of (original page ordinal, applied rotation) pairs.
-/

namespace MergePDF

/-- Error events surfaced via `setError` in merge mode: the
"Only PDF files are accepted" message and the "Only N more files can be
added" message. -/
inductive MergeError : Type where
  | onlyPdfAccepted : MergeError
  | slotsExceeded : Nat → MergeError
deriving DecidableEq, Repr

/-- Error events surfaced via `setError` in trim mode: the
"Cannot delete all pages" message and the "Maximum 4 cut points" message. -/
inductive TrimError : Type where
  | cannotDeleteAllPages : TrimError
  | maxCutPoints : TrimError
deriving DecidableEq, Repr

/-- `MAX_FILES = 5` in the source. -/
def MAX_FILES : Nat := 5

/-- `MAX_CUTS = 4` in the source. -/
def MAX_CUTS : Nat := 4

/-- Embedding of `addFiles`: filter the offered files to those passing the
PDF check, reject with an error when none remain, otherwise append the
first `MAX_FILES - files.length` of them (with their probed page counts,
possibly `none`) and report a slots error when some were dropped. -/
def addFiles (files : List (Option Nat)) (offered : List (Bool × Option Nat)) :
    List (Option Nat) × Option MergeError :=
  let pdfFiles := (offered.filter (fun f => f.1)).map (fun f => f.2)
  if pdfFiles.length = 0 then
    (files, some MergeError.onlyPdfAccepted)
  else
    let availableSlots := MAX_FILES - files.length
    let filesToAdd := pdfFiles.take availableSlots
    let err : Option MergeError :=
      if availableSlots < pdfFiles.length then
        some (MergeError.slotsExceeded availableSlots)
      else none
    (files ++ filesToAdd, err)

/-- One merge source's contribution: `copyPages(pdf, pdf.getPageIndices())`
followed by `addPage` for each page, i.e. the pairs `(i, 1) … (i, n)` for
source index `i` with `n` pages. -/
def sourcePages (i n : Nat) : List (Nat × Nat) :=
  (List.range n).map (fun j => (i, j + 1))

/-- The page-emission loop of `mergePDFs`: `for (const pdfFile of files)`
appends every page of each source in order; `i` is the position of the
current source in the queue. -/
def mergePlanAux (i : Nat) : List Nat → List (Nat × Nat)
  | [] => []
  | n :: rest => sourcePages i n ++ mergePlanAux (i + 1) rest

/-- The full output sequence of `mergePDFs` over the queue's actual page
counts, starting from the first source. -/
def mergePlan (counts : List Nat) : List (Nat × Nat) :=
  mergePlanAux 0 counts

/-- Embedding of `mergePDFs` with its guard `if (files.length < 2) return`:
`none` models the early return, `some` the emitted page sequence. -/
def mergePDFs (counts : List Nat) : Option (List (Nat × Nat)) :=
  if counts.length < 2 then none else some (mergePlan counts)

/-- The sources the `mergePDFs` loop iterates over: the entire queue,
unfiltered, whenever the length guard passes. -/
def mergeQueueSources (files : List (Option Nat)) : Option (List (Option Nat)) :=
  if files.length < 2 then none else some files

/-- Embedding of `getActivePages` / the `activePageNums` computation of
`processTrim`: `Array.from({length: pageCount}, (_, i) => i + 1)` filtered
by `!deletedPages.has(p)`. -/
def activePageNums (pageCount : Nat) (deletedPages : Finset Nat) : List Nat :=
  ((List.range pageCount).map (fun i => i + 1)).filter (fun p => decide (p ∉ deletedPages))

/-- Insertion into an ascending list, used to embed
`[...cutPoints].sort((a, b) => a - b)`. -/
def insertSorted (x : Nat) : List Nat → List Nat
  | [] => [x]
  | y :: ys => if x ≤ y then x :: y :: ys else y :: insertSorted x ys

/-- Embedding of `[...cutPoints].sort((a, b) => a - b)`. -/
def sortCuts (cutPoints : List Nat) : List Nat :=
  cutPoints.foldr insertSorted []

/-- The range-building loop of `processTrim`: walk the active pages,
append each to the current range, and close the range whenever the page
just appended is a cut point; after the walk push the trailing range if
non-empty. -/
def buildRangesAux (sortedCuts : List Nat) : List Nat → List Nat → List (List Nat)
  | [], currentRange => if 0 < currentRange.length then [currentRange] else []
  | p :: rest, currentRange =>
    if p ∈ sortedCuts then
      (currentRange ++ [p]) :: buildRangesAux sortedCuts rest []
    else
      buildRangesAux sortedCuts rest (currentRange ++ [p])

/-- The `ranges` value computed by `processTrim` from the page count, the
cut points and the deleted pages. -/
def trimRanges (pageCount : Nat) (cutPoints : List Nat) (deletedPages : Finset Nat) :
    List (List Nat) :=
  buildRangesAux (sortCuts cutPoints) (activePageNums pageCount deletedPages) []

/-- `Map.get` on the rotation map: the value of the first entry with the
given key. -/
def mapGet (m : List (Nat × Nat)) (k : Nat) : Option Nat :=
  (m.find? (fun e => e.1 == k)).map (fun e => e.2)

/-- `Map.set` on the rotation map: replace the existing entry in place or
append a new one. -/
def mapSet : List (Nat × Nat) → Nat → Nat → List (Nat × Nat)
  | [], k, v => [(k, v)]
  | e :: rest, k, v => if e.1 = k then (k, v) :: rest else e :: mapSet rest k v

/-- `Map.delete` on the rotation map. -/
def mapDelete (m : List (Nat × Nat)) (k : Nat) : List (Nat × Nat) :=
  m.filter (fun e => !(e.1 == k))

/-- Embedding of `rotatePage`: read the current delta (0 when absent), add
90 modulo 360, delete the entry when the result is 0 and store it
otherwise. -/
def rotatePage (rotations : List (Nat × Nat)) (pageNum : Nat) : List (Nat × Nat) :=
  let currentRotation := (mapGet rotations pageNum).getD 0
  let newRotation := (currentRotation + 90) % 360
  if newRotation = 0 then mapDelete rotations pageNum
  else mapSet rotations pageNum newRotation

/-- Embedding of `toggleDeletePage`: restore a deleted page, or refuse a
new deletion with "Cannot delete all pages" once `pageCount - 1` pages are
deleted, or record the deletion. -/
def toggleDeletePage (pageCount : Nat) (deletedPages : Finset Nat) (pageNum : Nat) :
    Finset Nat × Option TrimError :=
  if pageNum ∈ deletedPages then
    (deletedPages.erase pageNum, none)
  else if pageCount - 1 ≤ deletedPages.card then
    (deletedPages, some TrimError.cannotDeleteAllPages)
  else
    (insert pageNum deletedPages, none)

/-- Embedding of `hasModifications`:
`deletedPages.size > 0 || rotations.size > 0 || cutPoints.length > 0`. -/
def hasModifications (cutPoints : List Nat) (deletedPages : Finset Nat)
    (rotations : List (Nat × Nat)) : Bool :=
  decide (0 < deletedPages.card) || decide (0 < rotations.length) ||
    decide (0 < cutPoints.length)

/-- The per-page assembly of `processTrim`: each emitted page carries the
rotation `rotations.get(p) || 0`. -/
def pageWithRotation (rotations : List (Nat × Nat)) (p : Nat) : Nat × Nat :=
  (p, (mapGet rotations p).getD 0)

/-- The split filename `` `${baseName}-part${i + 1}.pdf` `` for loop
index `i`. -/
def partFileName (baseName : String) (i : Nat) : String :=
  baseName ++ "-part" ++ toString (i + 1) ++ ".pdf"

/-- The artifact-emission loop of the split branch of `processTrim`:
iterate over the ranges with loop index `i`, skip empty ranges
(`if (rangePages.length === 0) continue`), and emit one artifact named
`partFileName baseName i` per remaining range. -/
def splitArtifactsAux (baseName : String) (rotations : List (Nat × Nat)) (i : Nat) :
    List (List Nat) → List (String × List (Nat × Nat))
  | [] => []
  | rangePages :: rest =>
    if rangePages.length = 0 then
      splitArtifactsAux baseName rotations (i + 1) rest
    else
      (partFileName baseName i, rangePages.map (pageWithRotation rotations)) ::
        splitArtifactsAux baseName rotations (i + 1) rest

/-- Embedding of `processTrim`: `none` models the early return when there
is no trim file or no modification; otherwise the no-cut branch emits one
`-trimmed` artifact over the active pages and the split branch emits one
artifact per non-empty range. -/
def processTrim (pageCount : Nat) (cutPoints : List Nat) (deletedPages : Finset Nat)
    (rotations : List (Nat × Nat)) (baseName : String) :
    Option (List (String × List (Nat × Nat))) :=
  if hasModifications cutPoints deletedPages rotations then
    if cutPoints.length = 0 then
      some [(baseName ++ "-trimmed.pdf",
        (activePageNums pageCount deletedPages).map (pageWithRotation rotations))]
    else
      some (splitArtifactsAux baseName rotations 0
        (trimRanges pageCount cutPoints deletedPages))
  else none

/-- The strict lexicographic order on merge output entries: earlier source,
or same source and earlier page. -/
def mergeLex (a b : Nat × Nat) : Prop :=
  a.1 < b.1 ∨ (a.1 = b.1 ∧ a.2 < b.2)

theorem mem_sourcePages (i n : Nat) (x : Nat × Nat) :
    x ∈ sourcePages i n ↔ x.1 = i ∧ 1 ≤ x.2 ∧ x.2 ≤ n := by
  constructor
  · intro hx
    simp only [sourcePages, List.mem_map, List.mem_range] at hx
    obtain ⟨j, hj, rfl⟩ := hx
    exact ⟨rfl, Nat.succ_le_succ (Nat.zero_le j), hj⟩
  · rintro ⟨h1, h2, h3⟩
    simp only [sourcePages, List.mem_map, List.mem_range]
    refine ⟨x.2 - 1, by omega, ?_⟩
    obtain ⟨a, b⟩ := x
    simp only at h1 h2 h3
    simp only [Prod.mk.injEq]
    omega

theorem length_mergePlanAux (counts : List Nat) (i : Nat) :
    (mergePlanAux i counts).length = counts.sum := by
  induction counts generalizing i with
  | nil => rfl
  | cons n rest ih =>
    simp [mergePlanAux, sourcePages, ih, List.sum_cons]

theorem mem_mergePlanAux (counts : List Nat) (i : Nat) (x : Nat × Nat) :
    x ∈ mergePlanAux i counts ↔
      ∃ j, j < counts.length ∧ x.1 = i + j ∧ 1 ≤ x.2 ∧ x.2 ≤ counts.getD j 0 := by
  induction counts generalizing i with
  | nil => simp [mergePlanAux]
  | cons n rest ih =>
    simp only [mergePlanAux, List.mem_append, mem_sourcePages, ih, List.length_cons]
    constructor
    · rintro (⟨h1, h2, h3⟩ | ⟨j, hj, h1, h2, h3⟩)
      · exact ⟨0, by omega, by omega, h2, by simpa using h3⟩
      · exact ⟨j + 1, by omega, by omega, h2, by simpa using h3⟩
    · rintro ⟨j, hj, h1, h2, h3⟩
      cases j with
      | zero => exact Or.inl ⟨by omega, h2, by simpa using h3⟩
      | succ j => exact Or.inr ⟨j, by omega, by omega, h2, by simpa using h3⟩

theorem fst_ge_of_mem_mergePlanAux (counts : List Nat) (i : Nat) (x : Nat × Nat)
    (hx : x ∈ mergePlanAux i counts) : i ≤ x.1 := by
  obtain ⟨j, _, h1, _⟩ := (mem_mergePlanAux counts i x).1 hx
  omega

theorem pairwise_sourcePages (i n : Nat) : (sourcePages i n).Pairwise mergeLex := by
  unfold sourcePages
  rw [List.pairwise_map]
  exact (List.pairwise_lt_range n).imp (fun h => Or.inr ⟨rfl, by omega⟩)

theorem pairwise_mergePlanAux (counts : List Nat) (i : Nat) :
    (mergePlanAux i counts).Pairwise mergeLex := by
  induction counts generalizing i with
  | nil => exact List.Pairwise.nil
  | cons n rest ih =>
    unfold mergePlanAux
    rw [List.pairwise_append]
    refine ⟨pairwise_sourcePages i n, ih (i + 1), ?_⟩
    intro a ha b hb
    have h1 := ((mem_sourcePages i n a).1 ha).1
    have h2 := fst_ge_of_mem_mergePlanAux rest (i + 1) b hb
    exact Or.inl (by omega)

/-- C4: for every queue of at least two sources, `mergePDFs` emits its
plan rather than returning early, the plan's length is the sum of all page
counts, its entries are exactly the pairs (source index, page ordinal) with
the ordinal between 1 and that source's page count, and the entries are in
strictly increasing lexicographic order (concatenation in source order with
pages in increasing order, no deduplication, no reordering). -/
theorem mergePDFs_concatenation (counts : List Nat) (h2 : 2 ≤ counts.length) :
    mergePDFs counts = some (mergePlan counts)
    ∧ (mergePlan counts).length = counts.sum
    ∧ (∀ x : Nat × Nat, x ∈ mergePlan counts ↔
        x.1 < counts.length ∧ 1 ≤ x.2 ∧ x.2 ≤ counts.getD x.1 0)
    ∧ (mergePlan counts).Pairwise mergeLex := by
  refine ⟨?_, length_mergePlanAux counts 0, ?_, pairwise_mergePlanAux counts 0⟩
  · unfold mergePDFs
    rw [if_neg (by omega)]
  · intro x
    rw [mergePlan, mem_mergePlanAux]
    constructor
    · rintro ⟨j, hj, h1, h2, h3⟩
      refine ⟨by omega, h2, ?_⟩
      have : x.1 = j := by omega
      rw [this]; exact h3
    · rintro ⟨h1, h2, h3⟩
      exact ⟨x.1, h1, by omega, h2, h3⟩

/-- Witness for C4 at the spec's example: sources with page counts [3, 2]
give the five entries (0,1),(0,2),(0,3),(1,1),(1,2). -/
theorem mergePDFs_concatenation_witness :
    2 ≤ [3, 2].length
    ∧ (mergePDFs [3, 2] = some (mergePlan [3, 2])
      ∧ (mergePlan [3, 2]).length = [3, 2].sum
      ∧ (∀ x : Nat × Nat, x ∈ mergePlan [3, 2] ↔
          x.1 < [3, 2].length ∧ 1 ≤ x.2 ∧ x.2 ≤ [3, 2].getD x.1 0)
      ∧ (mergePlan [3, 2]).Pairwise mergeLex) :=
  ⟨by decide, mergePDFs_concatenation [3, 2] (by decide)⟩

theorem mem_insertSorted (x a : Nat) (l : List Nat) :
    a ∈ insertSorted x l ↔ a = x ∨ a ∈ l := by
  induction l with
  | nil => simp [insertSorted]
  | cons y ys ih =>
    unfold insertSorted
    by_cases h : x ≤ y
    · simp [h]
    · rw [if_neg h]
      simp only [List.mem_cons, ih]
      tauto

theorem mem_sortCuts (a : Nat) (l : List Nat) : a ∈ sortCuts l ↔ a ∈ l := by
  induction l with
  | nil => simp [sortCuts]
  | cons y ys ih =>
    show a ∈ insertSorted y (ys.foldr insertSorted []) ↔ _
    rw [mem_insertSorted]
    show a = y ∨ a ∈ sortCuts ys ↔ _
    rw [ih, List.mem_cons]

theorem flatten_buildRangesAux (sortedCuts : List Nat) (active : List Nat) :
    ∀ currentRange : List Nat,
      (buildRangesAux sortedCuts active currentRange).flatten = currentRange ++ active := by
  induction active with
  | nil =>
    intro currentRange
    cases currentRange with
    | nil => simp [buildRangesAux]
    | cons a as => simp [buildRangesAux]
  | cons p rest ih =>
    intro currentRange
    unfold buildRangesAux
    by_cases h : p ∈ sortedCuts
    · rw [if_pos h]
      simp [ih]
    · rw [if_neg h]
      simp [ih]

theorem ne_nil_of_mem_buildRangesAux (sortedCuts : List Nat) (active : List Nat) :
    ∀ currentRange : List Nat, ∀ r ∈ buildRangesAux sortedCuts active currentRange,
      r ≠ [] := by
  induction active with
  | nil =>
    intro currentRange r hr
    unfold buildRangesAux at hr
    by_cases h : 0 < currentRange.length
    · rw [if_pos h] at hr
      simp only [List.mem_singleton] at hr
      subst hr
      intro hc
      rw [hc] at h
      simp at h
    · rw [if_neg h] at hr
      simp at hr
  | cons p rest ih =>
    intro currentRange r hr
    unfold buildRangesAux at hr
    by_cases h : p ∈ sortedCuts
    · rw [if_pos h] at hr
      rcases List.mem_cons.1 hr with h1 | h1
      · subst h1; simp
      · exact ih [] r h1
    · rw [if_neg h] at hr
      exact ih _ r hr

theorem dropLast_no_cut_buildRangesAux (sortedCuts : List Nat) (active : List Nat) :
    ∀ currentRange : List Nat, (∀ c ∈ currentRange, c ∉ sortedCuts) →
      ∀ r ∈ buildRangesAux sortedCuts active currentRange,
        ∀ c ∈ r.dropLast, c ∉ sortedCuts := by
  induction active with
  | nil =>
    intro currentRange hcur r hr c hc
    unfold buildRangesAux at hr
    by_cases h : 0 < currentRange.length
    · rw [if_pos h] at hr
      simp only [List.mem_singleton] at hr
      subst hr
      exact hcur c ((List.dropLast_sublist r).subset hc)
    · rw [if_neg h] at hr
      simp at hr
  | cons p rest ih =>
    intro currentRange hcur r hr c hc
    unfold buildRangesAux at hr
    by_cases h : p ∈ sortedCuts
    · rw [if_pos h] at hr
      rcases List.mem_cons.1 hr with h1 | h1
      · subst h1
        rw [List.dropLast_concat] at hc
        exact hcur c hc
      · exact ih [] (by simp) r h1 c hc
    · rw [if_neg h] at hr
      refine ih (currentRange ++ [p]) ?_ r hr c hc
      intro d hd
      rcases List.mem_append.1 hd with h1 | h1
      · exact hcur d h1
      · simp only [List.mem_singleton] at h1
        subst h1
        exact h

theorem buildRangesAux_congr_cuts (cuts1 cuts2 : List Nat) (active : List Nat)
    (h : ∀ p ∈ active, (p ∈ cuts1 ↔ p ∈ cuts2)) :
    ∀ currentRange : List Nat,
      buildRangesAux cuts1 active currentRange = buildRangesAux cuts2 active currentRange := by
  induction active with
  | nil => intro currentRange; rfl
  | cons p rest ih =>
    intro currentRange
    have hp := h p (List.mem_cons_self p rest)
    have hrest : ∀ q ∈ rest, (q ∈ cuts1 ↔ q ∈ cuts2) :=
      fun q hq => h q (List.mem_cons_of_mem p hq)
    unfold buildRangesAux
    by_cases hc : p ∈ cuts1
    · rw [if_pos hc, if_pos (hp.1 hc), ih hrest []]
    · rw [if_neg hc, if_neg (fun hx => hc (hp.2 hx)), ih hrest _]

theorem mem_activePageNums (n : Nat) (deleted : Finset Nat) (p : Nat) :
    p ∈ activePageNums n deleted ↔ 1 ≤ p ∧ p ≤ n ∧ p ∉ deleted := by
  unfold activePageNums
  simp only [List.mem_filter, List.mem_map, List.mem_range, decide_eq_true_eq]
  constructor
  · rintro ⟨⟨i, hi, rfl⟩, h2⟩
    exact ⟨by omega, by omega, h2⟩
  · rintro ⟨h1, h2, h3⟩
    exact ⟨⟨p - 1, by omega, by omega⟩, h3⟩

theorem pairwise_lt_activePageNums (n : Nat) (deleted : Finset Nat) :
    (activePageNums n deleted).Pairwise (· < ·) := by
  unfold activePageNums
  refine List.Pairwise.filter _ ?_
  rw [List.pairwise_map]
  exact (List.pairwise_lt_range n).imp (fun h => by omega)

theorem nodup_activePageNums (n : Nat) (deleted : Finset Nat) :
    (activePageNums n deleted).Nodup :=
  (pairwise_lt_activePageNums n deleted).imp (fun h => Nat.ne_of_lt h)

theorem sum_map_count (p : Nat) (L : List (List Nat)) :
    (L.map (fun part => part.count p)).sum = L.flatten.count p := by
  induction L with
  | nil => simp
  | cons r rest ih => simp [List.count_append, ih]

theorem pairwise_parts_of_flatten (L : List (List Nat))
    (h : L.flatten.Pairwise (· < ·)) :
    L.Pairwise (fun p q => ∀ a ∈ p, ∀ b ∈ q, a < b) := by
  induction L with
  | nil => exact List.Pairwise.nil
  | cons r rest ih =>
    rw [List.flatten_cons, List.pairwise_append] at h
    obtain ⟨h1, h2, h3⟩ := h
    refine List.Pairwise.cons ?_ (ih h2)
    intro q hq a ha b hb
    exact h3 a ha b (List.mem_flatten.2 ⟨q, hq, hb⟩)

/-- C1: for every pageCount of at least one, every deleted set inside
[1, n] leaving a survivor, and every cut-point set inside [1, n-1], the
ranges built by `processTrim` cover the surviving sequence exactly: their
concatenation is the surviving sequence, every part is non-empty, parts
are in ascending order (every ordinal of an earlier part is below every
ordinal of a later part, so minima ascend), every surviving ordinal is
counted exactly once across all parts, and no part contains a deleted
ordinal. -/
theorem processTrim_partition_coverage (n : Nat) (cutPoints : List Nat)
    (deletedPages : Finset Nat) (_hn : 1 ≤ n)
    (_hdel : ∀ p ∈ deletedPages, 1 ≤ p ∧ p ≤ n)
    (_hsurv : ∃ p, 1 ≤ p ∧ p ≤ n ∧ p ∉ deletedPages)
    (_hcuts : ∀ c ∈ cutPoints, 1 ≤ c ∧ c ≤ n - 1) :
    (trimRanges n cutPoints deletedPages).flatten = activePageNums n deletedPages
    ∧ (∀ part ∈ trimRanges n cutPoints deletedPages, part ≠ [])
    ∧ (trimRanges n cutPoints deletedPages).Pairwise
        (fun p q => ∀ a ∈ p, ∀ b ∈ q, a < b)
    ∧ (∀ p, 1 ≤ p → p ≤ n → p ∉ deletedPages →
        ((trimRanges n cutPoints deletedPages).map (fun part => part.count p)).sum = 1)
    ∧ (∀ p ∈ deletedPages, ∀ part ∈ trimRanges n cutPoints deletedPages, p ∉ part) := by
  have hflat : (trimRanges n cutPoints deletedPages).flatten
      = activePageNums n deletedPages := by
    unfold trimRanges
    simpa using flatten_buildRangesAux (sortCuts cutPoints)
      (activePageNums n deletedPages) []
  refine ⟨hflat, ?_, ?_, ?_, ?_⟩
  · intro part hp
    exact ne_nil_of_mem_buildRangesAux _ _ [] part hp
  · have hpw := pairwise_lt_activePageNums n deletedPages
    rw [← hflat] at hpw
    exact pairwise_parts_of_flatten _ hpw
  · intro p h1 h2 h3
    rw [sum_map_count, hflat]
    exact List.count_eq_one_of_mem (nodup_activePageNums n deletedPages)
      ((mem_activePageNums n deletedPages p).2 ⟨h1, h2, h3⟩)
  · intro p hp part hpart hmem
    have hmem2 : p ∈ (trimRanges n cutPoints deletedPages).flatten :=
      List.mem_flatten.2 ⟨part, hpart, hmem⟩
    rw [hflat, mem_activePageNums] at hmem2
    exact hmem2.2.2 hp

/-- Witness for C1 at pageCount 5, cutPoints [2, 3], deletedPages {3}. -/
theorem processTrim_partition_coverage_witness :
    (1 ≤ 5 ∧ (∀ p ∈ ({3} : Finset Nat), 1 ≤ p ∧ p ≤ 5)
      ∧ (∃ p, 1 ≤ p ∧ p ≤ 5 ∧ p ∉ ({3} : Finset Nat))
      ∧ (∀ c ∈ [2, 3], 1 ≤ c ∧ c ≤ 5 - 1))
    ∧ ((trimRanges 5 [2, 3] {3}).flatten = activePageNums 5 {3}
      ∧ (∀ part ∈ trimRanges 5 [2, 3] {3}, part ≠ [])
      ∧ (trimRanges 5 [2, 3] {3}).Pairwise (fun p q => ∀ a ∈ p, ∀ b ∈ q, a < b)
      ∧ (∀ p, 1 ≤ p → p ≤ 5 → p ∉ ({3} : Finset Nat) →
          ((trimRanges 5 [2, 3] {3}).map (fun part => part.count p)).sum = 1)
      ∧ (∀ p ∈ ({3} : Finset Nat), ∀ part ∈ trimRanges 5 [2, 3] {3}, p ∉ part)) :=
  ⟨⟨by decide, by decide, ⟨1, by decide⟩, by decide⟩,
    processTrim_partition_coverage 5 [2, 3] {3} (by decide) (by decide)
      ⟨1, by decide⟩ (by decide)⟩

/-- C2: a cut point on a deleted page contributes no boundary (filtering
inert cut points out changes nothing), a surviving cut point closes its
part immediately (inside a part only the last ordinal can be a cut point),
and the spec's example pageCount 5, cutPoints {2, 3}, deletedPages {3}
yields exactly the parts [1, 2] and [4, 5]. -/
theorem processTrim_inert_cut_tiebreak (n : Nat) (cutPoints : List Nat)
    (deletedPages : Finset Nat) :
    trimRanges n cutPoints deletedPages
      = trimRanges n (cutPoints.filter (fun c => decide (c ∉ deletedPages))) deletedPages
    ∧ (∀ part ∈ trimRanges n cutPoints deletedPages,
        ∀ c ∈ part.dropLast, c ∉ cutPoints)
    ∧ trimRanges 5 [2, 3] {3} = [[1, 2], [4, 5]] := by
  refine ⟨?_, ?_, by decide⟩
  · unfold trimRanges
    refine buildRangesAux_congr_cuts _ _ _ ?_ []
    intro p hp
    rw [mem_activePageNums] at hp
    rw [mem_sortCuts, mem_sortCuts, List.mem_filter]
    simp [hp.2.2]
  · intro part hpart c hc hcin
    exact dropLast_no_cut_buildRangesAux (sortCuts cutPoints) _ [] (by simp)
      part hpart c hc ((mem_sortCuts c cutPoints).2 hcin)

theorem splitArtifactsAux_names (baseName : String) (rotations : List (Nat × Nat))
    (L : List (List Nat)) :
    ∀ i : Nat, (∀ r ∈ L, r ≠ []) →
      (splitArtifactsAux baseName rotations i L).map Prod.fst
        = (List.range L.length).map (fun j => partFileName baseName (i + j)) := by
  induction L with
  | nil => intro i _; rfl
  | cons r rest ih =>
    intro i h
    have hr : r ≠ [] := h r (List.mem_cons_self r rest)
    have hrest : ∀ q ∈ rest, q ≠ [] := fun q hq => h q (List.mem_cons_of_mem r hq)
    unfold splitArtifactsAux
    rw [if_neg (by simpa [List.length_eq_zero] using hr)]
    rw [List.map_cons, ih (i + 1) hrest, List.length_cons,
      List.range_succ_eq_map, List.map_cons, List.map_map]
    congr 1
    refine List.map_congr_left ?_
    intro j _
    simp only [Function.comp_apply]
    congr 1
    omega

theorem splitArtifactsAux_parts (baseName : String) (rotations : List (Nat × Nat))
    (L : List (List Nat)) :
    ∀ i : Nat, (∀ r ∈ L, r ≠ []) →
      (splitArtifactsAux baseName rotations i L).map Prod.snd
        = L.map (fun r => r.map (pageWithRotation rotations)) := by
  induction L with
  | nil => intro i _; rfl
  | cons r rest ih =>
    intro i h
    have hr : r ≠ [] := h r (List.mem_cons_self r rest)
    have hrest : ∀ q ∈ rest, q ≠ [] := fun q hq => h q (List.mem_cons_of_mem r hq)
    unfold splitArtifactsAux
    rw [if_neg (by simpa [List.length_eq_zero] using hr)]
    rw [List.map_cons, ih (i + 1) hrest, List.map_cons]

/-- C3: the split artifacts emitted over the ranges of `processTrim` are
named base-part1.pdf … base-partk.pdf contiguously in output order, where
k is the number of ranges (no index is ever skipped, because no range is
empty), and no emitted artifact has an empty page list. -/
theorem processTrim_contiguous_numbering (n : Nat) (cutPoints : List Nat)
    (deletedPages : Finset Nat) (rotations : List (Nat × Nat)) (baseName : String) :
    (splitArtifactsAux baseName rotations 0 (trimRanges n cutPoints deletedPages)).map Prod.fst
      = (List.range (trimRanges n cutPoints deletedPages).length).map
          (fun j => partFileName baseName j)
    ∧ ∀ a ∈ splitArtifactsAux baseName rotations 0 (trimRanges n cutPoints deletedPages),
        a.2 ≠ [] := by
  have hne : ∀ r ∈ trimRanges n cutPoints deletedPages, r ≠ [] :=
    fun r hr => ne_nil_of_mem_buildRangesAux _ _ [] r hr
  constructor
  · have h := splitArtifactsAux_names baseName rotations
      (trimRanges n cutPoints deletedPages) 0 hne
    simpa using h
  · intro a ha
    have h2 : a.2 ∈ (splitArtifactsAux baseName rotations 0
        (trimRanges n cutPoints deletedPages)).map Prod.snd :=
      List.mem_map_of_mem Prod.snd ha
    rw [splitArtifactsAux_parts baseName rotations
      (trimRanges n cutPoints deletedPages) 0 hne] at h2
    obtain ⟨r, hr, hr2⟩ := List.mem_map.1 h2
    rw [← hr2]
    simp only [ne_eq, List.map_eq_nil_iff]
    exact hne r hr

/-- C5 counterexample: with cut point 7 outside [1, 4] for pageCount 5,
`processTrim` raises no InvalidCutPoint error and returns a normal
single-part split; with the only page of a one-page document deleted, it
returns a normal empty `-trimmed` artifact instead of an AllPagesDeleted
failure. -/
theorem processTrim_no_error_counterexample :
    processTrim 5 [7] ∅ [] "doc"
      = some [("doc-part1.pdf", [(1, 0), (2, 0), (3, 0), (4, 0), (5, 0)])]
    ∧ processTrim 1 [] {1} [] "doc" = some [("doc-trimmed.pdf", [])] := by
  exact ⟨rfl, rfl⟩

/-- C5 amended: the partition step performs no defensive validation:
whenever `processTrim` runs with any modification present it returns
artifacts and never an error, regardless of out-of-range cut points or of
a fully deleted page set, and its ranges still concatenate exactly to the
surviving sequence. -/
theorem processTrim_no_defensive_checks (n : Nat) (cutPoints : List Nat)
    (deletedPages : Finset Nat) (rotations : List (Nat × Nat)) (baseName : String)
    (h : hasModifications cutPoints deletedPages rotations = true) :
    (processTrim n cutPoints deletedPages rotations baseName).isSome = true
    ∧ (trimRanges n cutPoints deletedPages).flatten = activePageNums n deletedPages := by
  constructor
  · unfold processTrim
    rw [if_pos h]
    by_cases hc : cutPoints.length = 0
    · rw [if_pos hc]; rfl
    · rw [if_neg hc]; rfl
  · unfold trimRanges
    simpa using flatten_buildRangesAux (sortCuts cutPoints) (activePageNums n deletedPages) []

/-- Witness for the amended C5 at pageCount 5 with the out-of-range cut
point 7 and no deletions. -/
theorem processTrim_no_defensive_checks_witness :
    hasModifications [7] (∅ : Finset Nat) [] = true
    ∧ ((processTrim 5 [7] ∅ [] "doc").isSome = true
      ∧ (trimRanges 5 [7] ∅).flatten = activePageNums 5 ∅) :=
  ⟨by decide, processTrim_no_defensive_checks 5 [7] ∅ [] "doc" (by decide)⟩

theorem buildRangesAux_no_cuts (active : List Nat) :
    ∀ currentRange : List Nat,
      buildRangesAux [] active currentRange
        = if 0 < (currentRange ++ active).length then [currentRange ++ active] else [] := by
  induction active with
  | nil => intro c; simp [buildRangesAux]
  | cons p rest ih =>
    intro c
    unfold buildRangesAux
    rw [if_neg (List.not_mem_nil p), ih (c ++ [p])]
    have hap : (c ++ [p]) ++ rest = c ++ p :: rest := by simp
    rw [hap]

/-- C7 counterexample: with no cut points, no deletions and no rotations,
`processTrim` returns early and emits no artifact at all, rather than a
single `-trimmed` artifact over the full surviving sequence. -/
theorem processTrim_trimmed_counterexample :
    processTrim 3 [] ∅ [] "doc" = none := rfl

/-- C7 amended: when cutPoints is empty and at least one modification
exists (a non-empty deletion set or rotation map), `processTrim` emits
exactly one artifact, named with the base filename plus `-trimmed`,
containing the entire surviving sequence in original order with each
page's rotation applied; and whenever a page survives, the no-cut
partition is the single part equal to the full surviving sequence. -/
theorem processTrim_trimmed_single_artifact (n : Nat) (deletedPages : Finset Nat)
    (rotations : List (Nat × Nat)) (baseName : String)
    (h : 0 < deletedPages.card ∨ 0 < rotations.length) :
    processTrim n [] deletedPages rotations baseName
      = some [(baseName ++ "-trimmed.pdf",
          (activePageNums n deletedPages).map (pageWithRotation rotations))]
    ∧ (activePageNums n deletedPages ≠ [] →
        trimRanges n [] deletedPages = [activePageNums n deletedPages]) := by
  constructor
  · have hm : hasModifications [] deletedPages rotations = true := by
      unfold hasModifications
      rcases h with h | h <;> simp [h]
    unfold processTrim
    rw [if_pos hm]
    rfl
  · intro hne
    unfold trimRanges
    show buildRangesAux [] (activePageNums n deletedPages) [] = _
    rw [buildRangesAux_no_cuts (activePageNums n deletedPages) []]
    rw [List.nil_append]
    rw [if_pos (List.length_pos.2 hne)]

/-- Witness for the amended C7 at pageCount 3 with page 2 deleted. -/
theorem processTrim_trimmed_single_artifact_witness :
    (0 < ({2} : Finset Nat).card ∨ 0 < ([] : List (Nat × Nat)).length)
    ∧ processTrim 3 [] {2} [] "doc"
        = some [("doc-trimmed.pdf", (activePageNums 3 {2}).map (pageWithRotation []))]
    ∧ trimRanges 3 [] {2} = [activePageNums 3 {2}] :=
  ⟨Or.inl (by decide),
    (processTrim_trimmed_single_artifact 3 {2} [] "doc" (Or.inl (by decide))).1,
    (processTrim_trimmed_single_artifact 3 {2} [] "doc" (Or.inl (by decide))).2 (by decide)⟩

theorem mapGet_mapSet_self (m : List (Nat × Nat)) (k v : Nat) :
    mapGet (mapSet m k v) k = some v := by
  induction m with
  | nil => simp [mapSet, mapGet]
  | cons e rest ih =>
    unfold mapSet
    by_cases h : e.1 = k
    · rw [if_pos h]
      simp [mapGet]
    · rw [if_neg h]
      simpa [mapGet, List.find?_cons, h] using ih

theorem mapGet_mapDelete_self (m : List (Nat × Nat)) (k : Nat) :
    mapGet (mapDelete m k) k = none := by
  induction m with
  | nil => rfl
  | cons e rest ih =>
    unfold mapDelete at ih ⊢
    by_cases h : e.1 = k
    · simp only [List.filter_cons, h]
      simpa using ih
    · simp [List.filter_cons, h, mapGet, List.find?_cons, ih]

theorem mem_mapSet (m : List (Nat × Nat)) (k v : Nat) (e : Nat × Nat)
    (he : e ∈ mapSet m k v) : e = (k, v) ∨ e ∈ m := by
  induction m with
  | nil => simpa [mapSet] using he
  | cons f rest ih =>
    unfold mapSet at he
    by_cases h : f.1 = k
    · rw [if_pos h] at he
      rcases List.mem_cons.1 he with h1 | h1
      · exact Or.inl h1
      · exact Or.inr (List.mem_cons_of_mem f h1)
    · rw [if_neg h] at he
      rcases List.mem_cons.1 he with h1 | h1
      · exact Or.inr (h1 ▸ List.mem_cons_self f rest)
      · rcases ih h1 with h2 | h2
        · exact Or.inl h2
        · exact Or.inr (List.mem_cons_of_mem f h2)

theorem mapGet_eq_some_mem (m : List (Nat × Nat)) (k v : Nat)
    (h : mapGet m k = some v) : (k, v) ∈ m := by
  unfold mapGet at h
  rcases hf : m.find? (fun e => e.1 == k) with _ | e
  · rw [hf] at h; simp at h
  · rw [hf] at h
    have hm := List.mem_of_find?_eq_some hf
    have hp : e.1 = k := by simpa using List.find?_some hf
    have hv : e.2 = v := by simpa using h
    have : e = (k, v) := by
      obtain ⟨a, b⟩ := e
      simp only at hp hv
      rw [hp, hv]
    exact this ▸ hm

theorem rotatePage_preserves_valid (m : List (Nat × Nat)) (p : Nat)
    (h : ∀ e ∈ m, e.2 = 90 ∨ e.2 = 180 ∨ e.2 = 270) :
    ∀ e ∈ rotatePage m p, e.2 = 90 ∨ e.2 = 180 ∨ e.2 = 270 := by
  intro e he
  unfold rotatePage at he
  by_cases h0 : (((mapGet m p).getD 0) + 90) % 360 = 0
  · rw [if_pos h0] at he
    exact h e (List.mem_of_mem_filter he)
  · rw [if_neg h0] at he
    rcases mem_mapSet m p _ e he with h1 | h1
    · subst h1
      cases hcur : mapGet m p with
      | none =>
        norm_num
      | some v =>
        have hv := h (p, v) (mapGet_eq_some_mem m p v hcur)
        simp only at hv
        rw [hcur] at h0
        rcases hv with h2 | h2 | h2 <;> subst h2
        · norm_num
        · norm_num
        · norm_num at h0
    · exact h e h1

theorem mapGet_rotatePage_self (m : List (Nat × Nat)) (p : Nat) :
    mapGet (rotatePage m p) p =
      (if (((mapGet m p).getD 0) + 90) % 360 = 0 then none
       else some ((((mapGet m p).getD 0) + 90) % 360)) := by
  unfold rotatePage
  by_cases h0 : (((mapGet m p).getD 0) + 90) % 360 = 0
  · rw [if_pos h0, if_pos h0]
    exact mapGet_mapDelete_self m p
  · rw [if_neg h0, if_neg h0]
    exact mapGet_mapSet_self m p _

/-- C9 counterexample: from the valid rotation state mapping page 1 to 90,
rotating page 1 four times yields the entry 90 again — an explicit entry,
not an absent one as the claim states for every rotation state. -/
theorem rotatePage_four_times_counterexample :
    mapGet (rotatePage (rotatePage (rotatePage (rotatePage [(1, 90)] 1) 1) 1) 1) 1 = some 90
    ∧ some 90 ≠ (none : Option Nat) := by
  exact ⟨rfl, by simp⟩

/-- C9 amended: for every valid rotation state (stored deltas all in
{90, 180, 270}), rotating a page four times returns that page's entry to
its previous value — in particular to absent when it was absent — and
rotation never stores an explicit 0: one rotation preserves validity, and
any sequence of rotations starting from the empty map yields only stored
values in {90, 180, 270}. -/
theorem rotatePage_composition (m : List (Nat × Nat)) (p : Nat)
    (hvalid : ∀ e ∈ m, e.2 = 90 ∨ e.2 = 180 ∨ e.2 = 270) :
    mapGet (rotatePage (rotatePage (rotatePage (rotatePage m p) p) p) p) p = mapGet m p
    ∧ (∀ e ∈ rotatePage m p, e.2 = 90 ∨ e.2 = 180 ∨ e.2 = 270)
    ∧ (∀ pages : List Nat, ∀ e ∈ pages.foldl rotatePage [],
        e.2 = 90 ∨ e.2 = 180 ∨ e.2 = 270) := by
  refine ⟨?_, rotatePage_preserves_valid m p hvalid, ?_⟩
  · rcases hcur : mapGet m p with _ | v
    · rw [mapGet_rotatePage_self, mapGet_rotatePage_self, mapGet_rotatePage_self,
        mapGet_rotatePage_self, hcur]
      norm_num
    · have hv := hvalid (p, v) (mapGet_eq_some_mem m p v hcur)
      rw [mapGet_rotatePage_self, mapGet_rotatePage_self, mapGet_rotatePage_self,
        mapGet_rotatePage_self, hcur]
      simp only at hv
      rcases hv with h2 | h2 | h2 <;> subst h2 <;> norm_num
  · have hfold : ∀ (pages : List Nat) (start : List (Nat × Nat)),
        (∀ e ∈ start, e.2 = 90 ∨ e.2 = 180 ∨ e.2 = 270) →
        ∀ e ∈ pages.foldl rotatePage start, e.2 = 90 ∨ e.2 = 180 ∨ e.2 = 270 := by
      intro pages
      induction pages with
      | nil => intro start hs e he; exact hs e he
      | cons q qs ih =>
        intro start hs
        exact ih (rotatePage start q) (rotatePage_preserves_valid start q hs)
    intro pages
    exact hfold pages [] (by simp)

/-- Witness for the amended C9 at the state mapping page 1 to 90. -/
theorem rotatePage_composition_witness :
    (∀ e ∈ [(1, 90)], e.2 = 90 ∨ e.2 = 180 ∨ e.2 = 270)
    ∧ (mapGet (rotatePage (rotatePage (rotatePage (rotatePage [(1, 90)] 1) 1) 1) 1) 1
        = mapGet [(1, 90)] 1
      ∧ (∀ e ∈ rotatePage [(1, 90)] 1, e.2 = 90 ∨ e.2 = 180 ∨ e.2 = 270)
      ∧ (∀ pages : List Nat, ∀ e ∈ pages.foldl rotatePage [],
          e.2 = 90 ∨ e.2 = 180 ∨ e.2 = 270)) :=
  ⟨by decide, rotatePage_composition [(1, 90)] 1 (by decide)⟩

/-- C8: once pageCount - 1 pages are deleted, toggling deletion of a
not-yet-deleted page returns the set unchanged together with the
"Cannot delete all pages" error, and every delete/restore toggle preserves
the invariant that at most pageCount - 1 pages are deleted. -/
theorem toggleDeletePage_floor (n : Nat) :
    (∀ (s : Finset Nat) (p : Nat), s.card = n - 1 → p ∉ s →
      toggleDeletePage n s p = (s, some TrimError.cannotDeleteAllPages))
    ∧ (∀ (s : Finset Nat) (p : Nat), s.card ≤ n - 1 →
      (toggleDeletePage n s p).1.card ≤ n - 1) := by
  constructor
  · intro s p hcard hp
    unfold toggleDeletePage
    rw [if_neg hp, if_pos (by omega)]
  · intro s p hcard
    unfold toggleDeletePage
    by_cases h1 : p ∈ s
    · rw [if_pos h1]
      calc (s.erase p).card ≤ s.card := Finset.card_erase_le
        _ ≤ n - 1 := hcard
    · rw [if_neg h1]
      by_cases h2 : n - 1 ≤ s.card
      · rw [if_pos h2]
        exact hcard
      · rw [if_neg h2]
        have hle := Finset.card_insert_le p s
        simp only
        omega

/-- Witness for C8 at pageCount 3 with pages 1 and 2 already deleted. -/
theorem toggleDeletePage_floor_witness :
    ({1, 2} : Finset Nat).card = 3 - 1
    ∧ toggleDeletePage 3 {1, 2} 3 = ({1, 2}, some TrimError.cannotDeleteAllPages)
    ∧ (toggleDeletePage 3 {1, 2} 1).1.card ≤ 3 - 1 :=
  ⟨by decide, (toggleDeletePage_floor 3).1 {1, 2} 3 (by decide) (by decide),
    (toggleDeletePage_floor 3).2 {1, 2} 1 (by decide)⟩

/-- C10: offering valid PDF files in merge mode with free slots appends
exactly the first MAX_FILES - m offered PDFs (all of them when they fit)
in offered order, leaves the m previously loaded files unchanged as a
prefix, and reports the slots error exactly when some offered files were
discarded. -/
theorem addFiles_over_limit_truncation (files : List (Option Nat))
    (offered : List (Bool × Option Nat)) (_hm : files.length < MAX_FILES)
    (hk : 0 < ((offered.filter (fun f => f.1)).map (fun f => f.2)).length) :
    (addFiles files offered).1
      = files ++ ((offered.filter (fun f => f.1)).map (fun f => f.2)).take
          (MAX_FILES - files.length)
    ∧ (addFiles files offered).1.length
      = files.length + min (MAX_FILES - files.length)
          ((offered.filter (fun f => f.1)).map (fun f => f.2)).length
    ∧ (addFiles files offered).1.take files.length = files
    ∧ (addFiles files offered).2
      = (if MAX_FILES - files.length
            < ((offered.filter (fun f => f.1)).map (fun f => f.2)).length
         then some (MergeError.slotsExceeded (MAX_FILES - files.length)) else none) := by
  simp only [addFiles]
  rw [if_neg (by omega)]
  refine ⟨rfl, ?_, ?_, rfl⟩
  · simp [List.length_take]
  · simp [List.take_left]

/-- Witness for C10: two files loaded, four PDFs offered, exactly the
first three appended and the slots error reported. -/
theorem addFiles_over_limit_truncation_witness :
    (([some 1, some 2] : List (Option Nat)).length < MAX_FILES
      ∧ 0 < (([(true, some 3), (true, some 4), (true, some 5), (true, some 6)].filter
          (fun f => f.1)).map (fun f => f.2)).length)
    ∧ ((addFiles [some 1, some 2]
          [(true, some 3), (true, some 4), (true, some 5), (true, some 6)]).1
        = [some 1, some 2]
          ++ (([(true, some 3), (true, some 4), (true, some 5), (true, some 6)].filter
              (fun f => f.1)).map (fun f => f.2)).take
            (MAX_FILES - ([some 1, some 2] : List (Option Nat)).length)
      ∧ (addFiles [some 1, some 2]
          [(true, some 3), (true, some 4), (true, some 5), (true, some 6)]).1.length
        = ([some 1, some 2] : List (Option Nat)).length
          + min (MAX_FILES - ([some 1, some 2] : List (Option Nat)).length)
            (([(true, some 3), (true, some 4), (true, some 5), (true, some 6)].filter
              (fun f => f.1)).map (fun f => f.2)).length
      ∧ (addFiles [some 1, some 2]
          [(true, some 3), (true, some 4), (true, some 5), (true, some 6)]).1.take
            ([some 1, some 2] : List (Option Nat)).length = [some 1, some 2]
      ∧ (addFiles [some 1, some 2]
          [(true, some 3), (true, some 4), (true, some 5), (true, some 6)]).2
        = (if MAX_FILES - ([some 1, some 2] : List (Option Nat)).length
              < (([(true, some 3), (true, some 4), (true, some 5), (true, some 6)].filter
                  (fun f => f.1)).map (fun f => f.2)).length
           then some (MergeError.slotsExceeded
              (MAX_FILES - ([some 1, some 2] : List (Option Nat)).length)) else none)) :=
  ⟨⟨by decide, by decide⟩,
    addFiles_over_limit_truncation [some 1, some 2]
      [(true, some 3), (true, some 4), (true, some 5), (true, some 6)]
      (by decide) (by decide)⟩

/-- C6 counterexample: a PDF whose page count probe fails is still
appended to the merge queue with a null page count, and once the queue
has two files `mergePDFs` consumes the whole queue — the null-pageCount
source included — so it is not excluded upstream. -/
theorem merge_receives_null_pageCount_counterexample :
    (addFiles [] [(true, none)]).1 = [none]
    ∧ (addFiles (addFiles [] [(true, none)]).1 [(true, some 3)]).1 = [none, some 3]
    ∧ mergeQueueSources [none, some 3] = some [none, some 3]
    ∧ (none : Option Nat) ∈ [none, some 3] := by
  exact ⟨rfl, rfl, rfl, by simp⟩

/-- C6 amended: the shell performs no upstream exclusion — `addFiles`
appends every accepted PDF up to the slot limit together with its probed
page count even when the probe failed (null), and `mergePDFs` iterates
over the entire queue whenever it holds at least two files, so sources
with unknown page counts do reach the merge loop. -/
theorem addFiles_no_upstream_exclusion (files : List (Option Nat))
    (offered : List (Bool × Option Nat))
    (hk : 0 < ((offered.filter (fun f => f.1)).map (fun f => f.2)).length) :
    (addFiles files offered).1
      = files ++ ((offered.filter (fun f => f.1)).map (fun f => f.2)).take
          (MAX_FILES - files.length)
    ∧ (∀ q : List (Option Nat), 2 ≤ q.length → mergeQueueSources q = some q) := by
  constructor
  · simp only [addFiles]
    rw [if_neg (by omega)]
  · intro q hq
    unfold mergeQueueSources
    rw [if_neg (by omega)]

/-- Witness for the amended C6 with one unreadable PDF offered to an empty
queue. -/
theorem addFiles_no_upstream_exclusion_witness :
    0 < (([(true, (none : Option Nat))].filter (fun f => f.1)).map (fun f => f.2)).length
    ∧ ((addFiles [] [(true, (none : Option Nat))]).1
        = [] ++ (([(true, (none : Option Nat))].filter (fun f => f.1)).map
            (fun f => f.2)).take (MAX_FILES - ([] : List (Option Nat)).length)
      ∧ (∀ q : List (Option Nat), 2 ≤ q.length → mergeQueueSources q = some q)) :=
  ⟨by decide, addFiles_no_upstream_exclusion [] [(true, none)] (by decide)⟩

example : activePageNums 5 {3} = [1, 2, 4, 5] := by decide

example : trimRanges 5 [2, 3] {3} = [[1, 2], [4, 5]] := by decide

example : mergePlan [3, 2] = [(0, 1), (0, 2), (0, 3), (1, 1), (1, 2)] := by decide

example : rotatePage [(1, 90)] 1 = [(1, 180)] := by decide

example : processTrim 3 [] {2} [] "doc" =
    some [("doc-trimmed.pdf", [(1, 0), (3, 0)])] := by decide

end MergePDF
